import Mathlib

/-!
# HeartGestures: landmark normalisation, label resolution and gesture confirmation

A shallow embedding of `src/app.js`.  The normaliser is embedded twice.  In the first
embedding JavaScript numbers are idealised as exact rationals (`ℚ`): subtraction,
`Math.abs`, `Math.max` and division are the exact operations.  It carries the shape and
bound properties of the output and feeds the model of `onResults`.  The second embedding
(`preprocessLandmark64`) computes in IEEE-754 binary64 with round-to-nearest-even, as the
JavaScript engine does; it carries the properties that state an exact equality of two
outputs, which rounding decides.  The frame counter is a natural number (it only ever
holds small non-negative integers).
-/

namespace HeartGestures

/-! ## Feature normaliser (`preprocessLandmark`, lines 74-92) -/

/-- A landmark as consumed by `preprocessLandmark`: the object with fields `x` and `y`. -/
structure Landmark where
  x : ℚ
  y : ℚ
deriving DecidableEq, Repr

/-- The constant `1e-6` passed as last argument to `Math.max` (line 89). -/
def floorEps : ℚ := 1 / 1000000

/-- Lines 77-84: `temp` after the loop, every pair being `[p.x - baseX, p.y - baseY]`. -/
def subtractBase (landmarkList : List Landmark) (baseX baseY : ℚ) : List (ℚ × ℚ) :=
  landmarkList.map fun p => (p.x - baseX, p.y - baseY)

/-- Line 86: `temp.flat()`, x before y for each pair, pairs in order. -/
def flat : List (ℚ × ℚ) → List ℚ
  | [] => []
  | p :: rest => p.1 :: p.2 :: flat rest

/-- The call `Math.max(...vals, last)`: the greatest of the listed values and `last`. -/
def mathMax (vals : List ℚ) (last : ℚ) : ℚ :=
  vals.foldr max last

/-- The vector `flat` of line 86 for a landmark list with first element `base`. -/
def flatOffsets (landmarkList : List Landmark) (base : Landmark) : List ℚ :=
  flat (subtractBase landmarkList base.x base.y)

/-- Function `preprocessLandmark` (lines 74-92).  The argument is `none` for a
`null`/`undefined` list; the result is `none` for the JavaScript `null`. -/
def preprocessLandmark : Option (List Landmark) → Option (List ℚ)
  | none => none
  | some [] => none
  | some (base :: rest) =>
    let flatVals := flatOffsets (base :: rest) base
    let absVals := flatVals.map abs
    let maxVal := mathMax absVals floorEps
    some (flatVals.map fun v => v / maxVal)

/-! ## Inference adapter (`predictFromTFLite`, lines 117-167)

The model object is an external collaborator.  What one call of its `predict` or `run`
method can do is described by the cases the source code distinguishes. -/

/-- Outcome of `tfliteModel.predict(inputTensor)` (line 125). -/
inductive PredictResult where
  /-- The call throws (or building its input tensor on line 122 does). -/
  | throws
  /-- The value is a `tf.Tensor`; `data` is its `dataSync()` content (lines 127-131). -/
  | tensor (data : List ℚ)
  /-- The value is an array or a typed array of numbers (lines 132-134). -/
  | arrayLike (data : List ℚ)
  /-- The value is `null` or `undefined`: reading `out.buffer` raises a `TypeError`. -/
  | nullish
  /-- Any other value (for instance a keyed tensor map), returned as is (line 137). -/
  | other
deriving DecidableEq, Repr

/-- Outcome of `await tfliteModel.run(typed)` (line 154). -/
inductive RunResult where
  /-- The call throws or the promise rejects. -/
  | throws
  /-- A falsy value (`null`, `undefined`, ...). -/
  | falsy
  /-- An array or typed array of numbers; its `length` is read on line 156. -/
  | arrayLike (data : List ℚ)
  /-- A keyed object without `length`, fields in enumeration order; a field value is
  `none` when it is `null`/`undefined` (then `Array.from` raises a `TypeError`). -/
  | keyed (fields : List (String × Option (List ℚ)))
  /-- A truthy value that is neither array-like nor an object. -/
  | other
deriving DecidableEq, Repr

/-- The loaded model: each calling convention is present (`some`) or absent. -/
structure TFLiteModel where
  predict : Option (List ℚ → PredictResult)
  run : Option (List ℚ → RunResult)

/-- What `predictFromTFLite` hands back on a normal return. -/
inductive Scores where
  /-- An array of numbers. -/
  | vec (data : List ℚ)
  /-- The non-array value of line 137, passed through untouched. -/
  | raw
deriving DecidableEq, Repr

/-- The two `Error`s that `predictFromTFLite` throws (lines 119 and 166). -/
inductive PredictError where
  | noModelLoaded
  | apiMismatch
deriving DecidableEq, Repr

/-- Lines 148-166: the `run` convention, then the final `throw`. -/
def runFallback (m : TFLiteModel) (inputArray : List ℚ) : Except PredictError Scores :=
  match m.run with
  | none => .error .apiMismatch
  | some run =>
    match run inputArray with
    | .throws => .error .apiMismatch
    | .falsy => .error .apiMismatch
    | .arrayLike data =>
      if data.length ≠ 0 then .ok (.vec data) else .error .apiMismatch
    | .keyed [] => .error .apiMismatch
    | .keyed ((_, some v) :: _) => .ok (.vec v)
    | .keyed ((_, none) :: _) => .error .apiMismatch
    | .other => .error .apiMismatch

/-- Function `predictFromTFLite` (lines 117-167). -/
def predictFromTFLite (tfliteModel : Option TFLiteModel) (inputArray : List ℚ) :
    Except PredictError Scores :=
  match tfliteModel with
  | none => .error .noModelLoaded
  | some m =>
    match m.predict with
    | some predict =>
      match predict inputArray with
      | .tensor data => .ok (.vec data)
      | .arrayLike data => .ok (.vec data)
      | .other => .ok .raw
      | .nullish => runFallback m inputArray
      | .throws => runFallback m inputArray
    | none => runFallback m inputArray

/-! ## Label resolver (`getLabelForIndex`, lines 234-247) -/

/-- The object literal `mapping` of lines 238-242. -/
def mapping : List (String × String) :=
  [("V", "В"), ("Y", "У"), ("R", "Р"), ("A", "А"), ("YA", "Я"), ("N", "Н"), ("I", "І"), ("T", "Т"),
   ("U", "И"), ("P", "П"), ("G", "Г"), ("E", "Е"), ("Z", "Ж"), ("L", "Л"), ("M", "М"), ("O", "О"),
   ("C", "С"), ("F", "Ф"), ("SH", "Ш"), ("YU", "Ю"), ("X", "Х"), ("CH", "Ч"), ("B", "Б")]

/-- JavaScript `a || b` on an optional string: `b` when `a` is `undefined` or empty. -/
def orElse (a : Option String) (b : String) : String :=
  match a with
  | some v => if v = "" then b else v
  | none => b

/-- Array read `labelList[idx]`: `undefined` outside `0 .. length - 1`. -/
def labelAt (labelList : List String) (idx : Int) : Option String :=
  if 0 ≤ idx then labelList[idx.toNat]? else none

/-- Function `getLabelForIndex` (lines 234-247).  `toUpperCase` is the built-in
`String.prototype.toUpperCase`; `labelList` is the cached table as it stands after the
lazy load attempt of line 235 (`none` when no table could be loaded). -/
def getLabelForIndex (toUpperCase : String → String) (labelList : Option (List String))
    (idx : Int) : String :=
  match labelList with
  | none => toString idx
  | some table =>
    match labelAt table idx with
    | none => toString idx
    | some lab =>
      if lab = "" then toString idx
      else orElse (mapping.lookup (toUpperCase lab)) lab

/-- Upper-casing of the letters `a`-`z`, which is what `toUpperCase` does on ASCII text. -/
def asciiUpper (s : String) : String :=
  String.mk (s.data.map Char.toUpper)

/-! ## Gesture confirmation counter and `onResults` (lines 18-22, 170-219) -/

/-- Line 20. -/
def REQUIRED_FRAMES : Nat := 150

/-- Line 21. -/
def FRAME_RATE : Nat := 30

/-- Line 22: `Math.floor(REQUIRED_FRAMES / FRAME_RATE)`. -/
def countdownSeconds : Nat := REQUIRED_FRAMES / FRAME_RATE

/-- The two module variables of lines 18-19. -/
structure ConfState where
  lastPredLabel : String
  sameLetterCounter : Nat
deriving DecidableEq, Repr

/-- Values of lines 18-19 at start-up. -/
def initialState : ConfState :=
  { lastPredLabel := "", sameLetterCounter := 0 }

/-- What one pass through lines 192-206 shows: the count and the remaining seconds of
the status line, and the captured letter with its index when line 203 runs. -/
structure Tracked where
  frames : Nat
  remainingSeconds : Int
  captured : Option (String × Int)
deriving DecidableEq, Repr

/-- The count after the increment-or-reset rule of lines 192-196. -/
def countedFrames (s : ConfState) (label : String) : Nat :=
  if label = s.lastPredLabel then s.sameLetterCounter + 1 else 0

/-- Line 199: the seconds shown as remaining for a given count. -/
def remainingSeconds (counter : Nat) : Int :=
  max 0 ((countdownSeconds : Int) - ((counter / FRAME_RATE : Nat) : Int))

/-- Lines 192-206 of `onResults`. -/
def gameLogic (s : ConfState) (label : String) (maxIdx : Int) : ConfState × Tracked :=
  let counter := countedFrames s label
  if REQUIRED_FRAMES ≤ counter then
    ({ lastPredLabel := label, sameLetterCounter := 0 },
     { frames := counter, remainingSeconds := remainingSeconds counter,
       captured := some (label, maxIdx) })
  else
    ({ lastPredLabel := label, sameLetterCounter := counter },
     { frames := counter, remainingSeconds := remainingSeconds counter, captured := none })

/-- Line 186: `scores.indexOf(Math.max(...scores))`; `-1` for an empty array. -/
def argmaxIndex : List ℚ → Int
  | [] => -1
  | v :: rest => ((v :: rest).indexOf (mathMax rest v) : Nat)

/-- A landmark as delivered by the detector, with its depth coordinate. -/
structure RawLandmark where
  x : ℚ
  y : ℚ
  z : ℚ
deriving DecidableEq, Repr

/-- The collaborators `onResults` reads during one frame. -/
structure Runtime where
  toUpperCase : String → String
  tfliteModel : Option TFLiteModel
  labelList : Option (List String)

/-- What `onResults` did with a frame. -/
inductive FrameReport where
  /-- The `else` branch of lines 212-218. -/
  | noHand
  /-- `preprocessLandmark` returned `null` (line 182 false): nothing happens. -/
  | noInput
  /-- The `catch` branch of lines 207-210. -/
  | predictionError
  /-- Lines 186-206 ran to the end. -/
  | tracked (maxIdx : Int) (label : String) (t : Tracked)
deriving DecidableEq, Repr

/-- Function `onResults` (lines 170-219), as a step on the confirmation state.
`multiHandLandmarks` is `none` when the field is missing.  Drawing is left out.  A
`raw` score value makes line 186 raise, and an index of `-1` makes line 187 raise; both
land in the `catch` branch. -/
def onResults (rt : Runtime) (s : ConfState)
    (multiHandLandmarks : Option (List (List RawLandmark))) : ConfState × FrameReport :=
  match multiHandLandmarks with
  | some (lm :: _) =>
    let landmarks01 := lm.map fun p => ({ x := p.x, y := p.y } : Landmark)
    match preprocessLandmark (some landmarks01) with
    | none => (s, .noInput)
    | some input =>
      match predictFromTFLite rt.tfliteModel input with
      | .error _ => (s, .predictionError)
      | .ok .raw => (s, .predictionError)
      | .ok (.vec scores) =>
        let maxIdx := argmaxIndex scores
        if maxIdx < 0 then (s, .predictionError)
        else
          let label := getLabelForIndex rt.toUpperCase rt.labelList maxIdx
          let r := gameLogic s label maxIdx
          (r.1, .tracked maxIdx label r.2)
  | _ => (s, .noHand)

/-- The confirmation state after a run of frames, each with its own collaborators. -/
def runFrames (s : ConfState)
    (frames : List (Runtime × Option (List (List RawLandmark)))) : ConfState :=
  frames.foldl (fun st f => (onResults f.1 st f.2).1) s

/-- Lines 192-206 applied to a run of resolved labels: the final state and what each
frame showed, in order. -/
def feedLabels (s : ConfState) : List (String × Int) → ConfState × List Tracked
  | [] => (s, [])
  | (label, maxIdx) :: rest =>
    let r := gameLogic s label maxIdx
    let tail := feedLabels r.1 rest
    (tail.1, r.2 :: tail.2)

/-! ## Sample inputs -/

/-- A wrist placed at the origin. -/
def wristAtOrigin : Landmark := { x := 0, y := 0 }

/-- A landmark away from the origin. -/
def fingerTip : Landmark := { x := 3 / 4, y := 1 / 4 }

/-- A hand whose landmark 1 lies `1e-7` to the right of the wrist and whose other
landmarks coincide with the wrist. -/
def nearWristHand : List Landmark :=
  { x := 1 / 2, y := 1 / 2 } :: { x := 1 / 2 + 1 / 10000000, y := 1 / 2 } ::
    List.replicate 19 { x := 1 / 2, y := 1 / 2 }

/-- Adding `(dx, dy)` to every landmark. -/
def translate (dx dy : ℚ) (l : List Landmark) : List Landmark :=
  l.map fun p => { x := p.x + dx, y := p.y + dy }

/-- Multiplying the `x` and `y` of every landmark by `k`. -/
def scale (k : ℚ) (l : List Landmark) : List Landmark :=
  l.map fun p => { x := k * p.x, y := k * p.y }

/-- A model whose `predict` throws and whose `run` returns two scores. -/
def fallbackModel : TFLiteModel :=
  { predict := some fun _ => .throws
    run := some fun _ => .arrayLike [1 / 10, 9 / 10] }

/-- A model whose `predict` and `run` both throw. -/
def brokenModel : TFLiteModel :=
  { predict := some fun _ => .throws
    run := some fun _ => .throws }

/-- Collaborators of a frame with the broken model and no label table. -/
def brokenRuntime : Runtime :=
  { toUpperCase := asciiUpper
    tfliteModel := some brokenModel
    labelList := none }

/-- A detector result holding one hand made of a single landmark. -/
def singlePointHand : List RawLandmark :=
  [{ x := 1 / 2, y := 1 / 2, z := 0 }]

/-! ## Binary64 embedding of the normaliser

The same lines 74-92 with the arithmetic of the JavaScript engine: every `-` and `/`
rounds its exact result to the nearest binary64 value, ties to even.  It is used for the
claims that state an exact equality of outputs. -/

/-- A binary64 value.  A finite value is a whole number of units of `2^-1074`, the
smallest positive double (so `+0` and `-0` are one value); the other values are the two
infinities and `NaN`. -/
inductive F64 where
  | fin (units : Int)
  | inf (negative : Bool)
  | nan
deriving DecidableEq, Repr

/-- The number `1` in units of `2^-1074`. -/
def unitShift : Nat := 2 ^ 1074

/-- The number `2^1024` in units of `2^-1074`: magnitudes from here on are not finite. -/
def overflowUnits : Nat := 2 ^ 2098

/-- The position of the leading bit of `n`, searched with `fuel` halvings. -/
def log2Fuel : Nat → Nat → Nat
  | 0, _ => 0
  | fuel + 1, n => if n < 2 then 0 else log2Fuel fuel (n / 2) + 1

/-- The position of the leading bit of `n` (`0` for `n = 0`). -/
def log2Floor (n : Nat) : Nat :=
  log2Fuel n n

/-- Rounding of the non-negative quotient `n / d` (a number of units) to the nearest
value with a 53-bit significand, ties to even.  Below `2^53` units the spacing of doubles
is one unit; from there on it is `2^s` units with `s = ⌊log2 (n / d)⌋ - 52`. -/
def roundMag (n d : Nat) : Nat :=
  let s := log2Floor (n / d) - 52
  let q := d * 2 ^ s
  let f := n / q
  let r := n % q
  let m := if 2 * r < q then f else if q < 2 * r then f + 1 else if f % 2 = 0 then f else f + 1
  m * 2 ^ s

/-- The double nearest to `± n / d` units; an infinity when the rounded magnitude
reaches `2^1024`. -/
def roundUnits (negative : Bool) (n d : Nat) : F64 :=
  if overflowUnits ≤ roundMag n d then .inf negative
  else .fin (if negative then -(roundMag n d : Int) else (roundMag n d : Int))

/-- The double nearest to the exact number `z` of units. -/
def roundInt (z : Int) : F64 :=
  roundUnits (decide (z < 0)) z.natAbs 1

/-- The double that the decimal literal with value `n / d` denotes. -/
def ofRatio (n d : Nat) : F64 :=
  roundUnits false (n * unitShift) d

/-- The operator `a + b` on doubles. -/
def add64 : F64 → F64 → F64
  | .fin a, .fin b => roundInt (a + b)
  | .fin _, .inf t => .inf t
  | .inf s, .fin _ => .inf s
  | .inf s, .inf t => if s = t then .inf s else .nan
  | _, _ => .nan

/-- The operator `a - b` on doubles. -/
def sub64 : F64 → F64 → F64
  | .fin a, .fin b => roundInt (a - b)
  | .fin _, .inf t => .inf (!t)
  | .inf s, .fin _ => .inf s
  | .inf s, .inf t => if s = t then .nan else .inf s
  | _, _ => .nan

/-- The operator `a * b` on doubles. -/
def mul64 : F64 → F64 → F64
  | .fin a, .fin b =>
    roundUnits (decide (a < 0) != decide (b < 0)) (a.natAbs * b.natAbs) unitShift
  | .fin a, .inf t => if a = 0 then .nan else .inf (decide (a < 0) != t)
  | .inf s, .fin b => if b = 0 then .nan else .inf (s != decide (b < 0))
  | .inf s, .inf t => .inf (s != t)
  | _, _ => .nan

/-- The operator `a / b` on doubles (a zero divisor is taken as `+0`). -/
def div64 : F64 → F64 → F64
  | .fin a, .fin b =>
    if b = 0 then (if a = 0 then .nan else .inf (decide (a < 0)))
    else roundUnits (decide (a < 0) != decide (b < 0)) (a.natAbs * unitShift) b.natAbs
  | .fin _, .inf _ => .fin 0
  | .inf s, .fin b => .inf (s != decide (b < 0))
  | _, _ => .nan

/-- The function `Math.abs`. -/
def abs64 : F64 → F64
  | .fin a => .fin |a|
  | .inf _ => .inf false
  | .nan => .nan

/-- The function `Math.max` on two doubles: `NaN` if either is `NaN`. -/
def max64 : F64 → F64 → F64
  | .nan, _ => .nan
  | _, .nan => .nan
  | .inf false, _ => .inf false
  | _, .inf false => .inf false
  | .inf true, b => b
  | a, .inf true => a
  | .fin a, .fin b => .fin (max a b)

/-- The call `Math.max(...vals, last)` on doubles. -/
def mathMax64 (vals : List F64) (last : F64) : F64 :=
  vals.foldr max64 last

/-- The comparison `a <= b` on doubles. -/
def le64 : F64 → F64 → Bool
  | .fin a, .fin b => decide (a ≤ b)
  | .fin _, .inf t => !t
  | .inf s, .fin _ => s
  | .inf s, .inf t => s || !t
  | _, _ => false

/-- Whether a double is finite. -/
def isFinite : F64 → Bool
  | .fin _ => true
  | _ => false

/-- A landmark whose coordinates are doubles. -/
structure Landmark64 where
  x : F64
  y : F64
deriving DecidableEq, Repr

/-- The literal `1e-6` of line 89 as a double. -/
def floor64 : F64 := ofRatio 1 1000000

/-- Line 86 on doubles: `temp.flat()`. -/
def flat64 : List (F64 × F64) → List F64
  | [] => []
  | p :: rest => p.1 :: p.2 :: flat64 rest

/-- Lines 77-86 on doubles: the vector `flat` for a list with first element `base`. -/
def flatOffsets64 (landmarkList : List Landmark64) (base : Landmark64) : List F64 :=
  flat64 (landmarkList.map fun p => (sub64 p.x base.x, sub64 p.y base.y))

/-- Function `preprocessLandmark` (lines 74-92) in binary64 arithmetic. -/
def preprocessLandmark64 : Option (List Landmark64) → Option (List F64)
  | none => none
  | some [] => none
  | some (base :: rest) =>
    let flatVals := flatOffsets64 (base :: rest) base
    let absVals := flatVals.map abs64
    let maxVal := mathMax64 absVals floor64
    some (flatVals.map fun v => div64 v maxVal)

/-- Adding `(dx, dy)` to every landmark, in binary64 arithmetic. -/
def translate64 (dx dy : F64) (l : List Landmark64) : List Landmark64 :=
  l.map fun p => { x := add64 p.x dx, y := add64 p.y dy }

/-- Multiplying the `x` and `y` of every landmark by `k`, in binary64 arithmetic. -/
def scale64 (k : F64) (l : List Landmark64) : List Landmark64 :=
  l.map fun p => { x := mul64 k p.x, y := mul64 k p.y }

/-- Whether `a + b` is formed without rounding: both are finite and the sum is the
exact one. -/
def exactSum : F64 → F64 → Bool
  | .fin a, .fin b => decide (add64 (.fin a) (.fin b) = .fin (a + b))
  | _, _ => false

/-- The hand of finite doubles with the given coordinates, in units of `2^-1074`. -/
def hand64 (pts : List (Int × Int)) : List Landmark64 :=
  pts.map fun p => { x := .fin p.1, y := .fin p.2 }

/-- The coordinates `pts` multiplied by `2^j`. -/
def timesPow2 (j : Nat) (pts : List (Int × Int)) : List (Int × Int) :=
  pts.map fun p => (2 ^ j * p.1, 2 ^ j * p.2)

/-- A hand with the wrist at `(0.1, 0.2)`, landmark 1 at `(0.3, 0.9)`, landmark 2 at
`(0.7, 0.4)` and the other eighteen landmarks on the wrist. -/
def spreadHand : List Landmark64 :=
  { x := ofRatio 1 10, y := ofRatio 2 10 } :: { x := ofRatio 3 10, y := ofRatio 9 10 } ::
    { x := ofRatio 7 10, y := ofRatio 4 10 } ::
    List.replicate 18 { x := ofRatio 1 10, y := ofRatio 2 10 }

/-- A hand with the wrist at the origin, landmark 1 at `(0.5, 0)` and the other
nineteen landmarks on the wrist. -/
def halfWidthHand64 : List Landmark64 :=
  { x := .fin 0, y := .fin 0 } :: { x := ofRatio 1 2, y := .fin 0 } ::
    List.replicate 19 { x := .fin 0, y := .fin 0 }

/-- The point `(1/4, 1/4)` in units of `2^-1074`. -/
def quarterWrist : Int × Int := ((2 ^ 1072 : Nat), (2 ^ 1072 : Nat))

/-- The point `(1/2, 3/4)` in units of `2^-1074`. -/
def quarterTip : Int × Int := ((2 ^ 1073 : Nat), (3 * 2 ^ 1072 : Nat))

/-- Coordinates of a hand with the wrist at `(1/4, 1/4)` and the other twenty landmarks
at `(1/2, 3/4)`. -/
def quarterPoints : List (Int × Int) :=
  quarterWrist :: List.replicate 20 quarterTip

/-- The literal `1e-6` as a whole number of units of `2^-1074`. -/
def floorUnits : Int := (roundMag (1 * unitShift) 1000000 : Nat)

/-- Multiplication of a double by `2^j`, leaving the finite range out of account. -/
def scaleUp (j : Nat) : F64 → F64
  | .fin w => .fin (2 ^ j * w)
  | v => v

/-! ## Lemmas on the normaliser -/

theorem flat_length (t : List (ℚ × ℚ)) : (flat t).length = 2 * t.length := by
  induction t with
  | nil => rfl
  | cons p rest ih => simp [flat, ih]; omega

theorem mem_flat {v : ℚ} {t : List (ℚ × ℚ)} :
    v ∈ flat t ↔ ∃ p ∈ t, v = p.1 ∨ v = p.2 := by
  induction t with
  | nil => simp [flat]
  | cons p rest ih =>
    simp only [flat, List.mem_cons, ih, exists_eq_or_imp, or_assoc]

theorem flat_getElem? (t : List (ℚ × ℚ)) (i : Nat) :
    (flat t)[2 * i]? = t[i]?.map Prod.fst ∧ (flat t)[2 * i + 1]? = t[i]?.map Prod.snd := by
  induction t generalizing i with
  | nil => simp [flat]
  | cons p rest ih =>
    cases i with
    | zero => simp [flat]
    | succ j =>
      have h1 : 2 * (j + 1) = (2 * j + 1) + 1 := by omega
      rw [h1]
      simp [flat, (ih j).1, (ih j).2]

theorem mem_flatOffsets {v : ℚ} {l : List Landmark} {b : Landmark} :
    v ∈ flatOffsets l b ↔ ∃ p ∈ l, v = p.x - b.x ∨ v = p.y - b.y := by
  simp [flatOffsets, subtractBase, mem_flat]

theorem last_le_mathMax (vals : List ℚ) (last : ℚ) : last ≤ mathMax vals last := by
  induction vals with
  | nil => simp [mathMax]
  | cons v rest ih => exact le_trans ih (by simp [mathMax])

theorem le_mathMax_of_mem {vals : List ℚ} {v : ℚ} (last : ℚ) (h : v ∈ vals) :
    v ≤ mathMax vals last := by
  induction vals with
  | nil => simp at h
  | cons w rest ih =>
    rcases List.mem_cons.mp h with rfl | h
    · simp [mathMax]
    · exact le_trans (ih h) (by simp [mathMax])

theorem mathMax_le {vals : List ℚ} {last c : ℚ} (h : ∀ v ∈ vals, v ≤ c) (hl : last ≤ c) :
    mathMax vals last ≤ c := by
  induction vals with
  | nil => simpa [mathMax] using hl
  | cons w rest ih =>
    have hw : w ≤ c := h w (List.mem_cons_self _ _)
    have hr : mathMax rest last ≤ c := ih fun v hv => h v (List.mem_cons_of_mem _ hv)
    simpa [mathMax] using And.intro hw hr

theorem mathMax_eq_or_mem (vals : List ℚ) (last : ℚ) :
    mathMax vals last = last ∨ mathMax vals last ∈ vals := by
  induction vals with
  | nil => simp [mathMax]
  | cons w rest ih =>
    have hm : mathMax (w :: rest) last = max w (mathMax rest last) := rfl
    rcases le_total w (mathMax rest last) with hle | hle
    · rw [hm, max_eq_right hle]
      rcases ih with h | h
      · exact Or.inl h
      · exact Or.inr (List.mem_cons_of_mem _ h)
    · rw [hm, max_eq_left hle]
      exact Or.inr (List.mem_cons_self _ _)

theorem floorEps_pos : 0 < floorEps := by
  unfold floorEps; norm_num

theorem maxVal_pos (vals : List ℚ) : 0 < mathMax vals floorEps :=
  lt_of_lt_of_le floorEps_pos (last_le_mathMax _ _)

/-- The value of `preprocessLandmark` on a non-empty list, spelled out. -/
theorem preprocessLandmark_cons (b : Landmark) (rest : List Landmark) :
    preprocessLandmark (some (b :: rest)) =
      some ((flatOffsets (b :: rest) b).map fun v =>
        v / mathMax ((flatOffsets (b :: rest) b).map abs) floorEps) := rfl

theorem flatOffsets_length (l : List Landmark) (b : Landmark) :
    (flatOffsets l b).length = 2 * l.length := by
  simp [flatOffsets, subtractBase, flat_length]

theorem abs_le_maxVal {vals : List ℚ} {v : ℚ} (h : v ∈ vals) :
    |v| ≤ mathMax (vals.map abs) floorEps :=
  le_mathMax_of_mem _ (List.mem_map_of_mem _ h)

theorem mathMax_mem_of_le {vals : List ℚ} {last : ℚ} (h : ∃ v ∈ vals, last ≤ v) :
    mathMax vals last ∈ vals := by
  obtain ⟨v, hv, hle⟩ := h
  rcases mathMax_eq_or_mem vals last with hm | hm
  · have h1 : v ≤ mathMax vals last := le_mathMax_of_mem last hv
    have h2 : v = mathMax vals last := le_antisymm h1 (by rw [hm]; exact hle)
    rw [← h2]; exact hv
  · exact hm

theorem abs_div_maxVal_le_one {vals : List ℚ} {v : ℚ} (h : v ∈ vals) :
    |v / mathMax (vals.map abs) floorEps| ≤ 1 := by
  rw [abs_div, abs_of_pos (maxVal_pos _)]
  exact (div_le_one (maxVal_pos _)).mpr (abs_le_maxVal h)

theorem flat_map_mul (k : ℚ) (t : List (ℚ × ℚ)) :
    flat (t.map fun p => (k * p.1, k * p.2)) = (flat t).map fun v => k * v := by
  induction t with
  | nil => rfl
  | cons p rest ih => simp [flat, ih]

theorem flatOffsets_translate (dx dy : ℚ) (l : List Landmark) (b : Landmark) :
    flatOffsets (translate dx dy l) { x := b.x + dx, y := b.y + dy } = flatOffsets l b := by
  unfold flatOffsets subtractBase translate
  rw [List.map_map]
  congr 1
  apply List.map_congr_left
  intro p _
  simp

theorem flatOffsets_scale (k : ℚ) (l : List Landmark) (b : Landmark) :
    flatOffsets (scale k l) { x := k * b.x, y := k * b.y } =
      (flatOffsets l b).map fun v => k * v := by
  unfold flatOffsets subtractBase scale
  rw [List.map_map, ← flat_map_mul, List.map_map]
  congr 1
  apply List.map_congr_left
  intro p _
  simp [mul_sub]

theorem flatOffsets_eq_zero {l : List Landmark} {b : Landmark} (h : ∀ p ∈ l, p = b)
    {v : ℚ} (hv : v ∈ flatOffsets l b) : v = 0 := by
  obtain ⟨p, hp, hv | hv⟩ := mem_flatOffsets.mp hv
  · rw [hv, h p hp]; simp
  · rw [hv, h p hp]; simp

theorem exists_offset_ge {l : List Landmark} {b : Landmark} {c : ℚ}
    (h : ∃ p ∈ l, c ≤ |p.x - b.x| ∨ c ≤ |p.y - b.y|) :
    ∃ a ∈ (flatOffsets l b).map abs, c ≤ a := by
  obtain ⟨p, hp, h | h⟩ := h
  · exact ⟨_, List.mem_map_of_mem _ (mem_flatOffsets.mpr ⟨p, hp, Or.inl rfl⟩), h⟩
  · exact ⟨_, List.mem_map_of_mem _ (mem_flatOffsets.mpr ⟨p, hp, Or.inr rfl⟩), h⟩

/-! ## Claims on the normaliser -/

/-- C1: for a landmark set `b :: rest` of exactly 21 points, `preprocessLandmark`
returns a non-null sequence of exactly 42 numbers; entry `2 * i` is the x offset of
landmark `i` from the wrist `b` and entry `2 * i + 1` its y offset, each divided by one
positive number `m`; and every one of the 42 numbers has absolute value at most 1. -/
theorem preprocessLandmark_shape_and_bound (b : Landmark) (rest : List Landmark)
    (hlen : (b :: rest).length = 21) :
    ∃ out m, preprocessLandmark (some (b :: rest)) = some out ∧ out.length = 42 ∧ 0 < m ∧
      (∀ i p, (b :: rest)[i]? = some p →
        out[2 * i]? = some ((p.x - b.x) / m) ∧ out[2 * i + 1]? = some ((p.y - b.y) / m)) ∧
      ∀ v ∈ out, |v| ≤ 1 := by
  refine ⟨_, mathMax ((flatOffsets (b :: rest) b).map abs) floorEps,
    preprocessLandmark_cons b rest, ?_, maxVal_pos _, ?_, ?_⟩
  · rw [List.length_map, flatOffsets_length, hlen]
  · intro i p hp
    have hf := flat_getElem? (subtractBase (b :: rest) b.x b.y) i
    have ht : (subtractBase (b :: rest) b.x b.y)[i]? = some (p.x - b.x, p.y - b.y) := by
      rw [subtractBase, List.getElem?_map, hp]; rfl
    rw [ht] at hf
    constructor
    · rw [List.getElem?_map]
      unfold flatOffsets
      rw [hf.1]; rfl
    · rw [List.getElem?_map]
      unfold flatOffsets
      rw [hf.2]; rfl
  · intro v hv
    obtain ⟨w, hw, rfl⟩ := List.mem_map.mp hv
    exact abs_div_maxVal_le_one hw

/-- Witness for C1: the 21-point hand with the wrist at the origin and every other
landmark at `(3/4, 1/4)`. -/
theorem preprocessLandmark_shape_and_bound_witness :
    (wristAtOrigin :: List.replicate 20 fingerTip).length = 21 ∧
    ∃ out m, preprocessLandmark (some (wristAtOrigin :: List.replicate 20 fingerTip))
        = some out ∧ out.length = 42 ∧ 0 < m ∧
      (∀ i p, (wristAtOrigin :: List.replicate 20 fingerTip)[i]? = some p →
        out[2 * i]? = some ((p.x - wristAtOrigin.x) / m) ∧
        out[2 * i + 1]? = some ((p.y - wristAtOrigin.y) / m)) ∧
      ∀ v ∈ out, |v| ≤ 1 :=
  ⟨by simp, preprocessLandmark_shape_and_bound wristAtOrigin
    (List.replicate 20 fingerTip) (by simp)⟩

/-- C2 as stated fails: in `nearWristHand` (21 points) landmark 1 does not coincide
with the wrist, yet the output is `0, 0, 1/10, 0, ..., 0`, whose largest absolute value
is `1/10` and not 1. -/
theorem preprocessLandmark_max_below_one :
    nearWristHand.length = 21 ∧
    (∃ p ∈ nearWristHand, some p ≠ nearWristHand.head?) ∧
    preprocessLandmark (some nearWristHand)
      = some (0 :: 0 :: (1 / 10) :: List.replicate 39 0) ∧
    ∀ v ∈ (0 :: 0 :: (1 / 10 : ℚ) :: List.replicate 39 0), |v| ≠ 1 := by
  refine ⟨by simp [nearWristHand], ?_, ?_, ?_⟩
  · refine ⟨{ x := 1 / 2 + 1 / 10000000, y := 1 / 2 }, by simp [nearWristHand], ?_⟩
    simp [nearWristHand]
  · norm_num [nearWristHand, preprocessLandmark, flatOffsets, subtractBase, flat, mathMax,
      floorEps, List.replicate, abs_of_pos, max_def]
  · intro v hv
    simp only [List.mem_cons, List.mem_replicate] at hv
    rcases hv with rfl | rfl | rfl | ⟨-, rfl⟩ <;> norm_num [abs_of_pos]

/-- C2, amended: for a landmark set `b :: rest` of exactly 21 points, if some landmark
has an x or y offset from the wrist `b` of absolute value at least `1e-6`, then some
output has absolute value exactly 1 and none exceeds 1; and if all 21 landmarks
coincide with the wrist, all 42 outputs are 0. -/
theorem preprocessLandmark_max_abs (b : Landmark) (rest : List Landmark)
    (hlen : (b :: rest).length = 21) :
    ((∃ p ∈ b :: rest, floorEps ≤ |p.x - b.x| ∨ floorEps ≤ |p.y - b.y|) →
      ∃ out, preprocessLandmark (some (b :: rest)) = some out ∧
        (∃ v ∈ out, |v| = 1) ∧ ∀ v ∈ out, |v| ≤ 1) ∧
    ((∀ p ∈ b :: rest, p = b) →
      preprocessLandmark (some (b :: rest)) = some (List.replicate 42 0)) := by
  constructor
  · intro h
    refine ⟨_, preprocessLandmark_cons b rest, ?_, ?_⟩
    · have hmem := mathMax_mem_of_le (exists_offset_ge h)
      obtain ⟨w, hw, hwM⟩ := List.mem_map.mp hmem
      refine ⟨_, List.mem_map_of_mem _ hw, ?_⟩
      rw [abs_div, abs_of_pos (maxVal_pos _), hwM]
      exact div_self (maxVal_pos _).ne'
    · intro v hv
      obtain ⟨w, hw, rfl⟩ := List.mem_map.mp hv
      exact abs_div_maxVal_le_one hw
  · intro h
    rw [preprocessLandmark_cons]
    congr 1
    rw [List.eq_replicate_iff]
    constructor
    · rw [List.length_map, flatOffsets_length, hlen]
    · intro v hv
      obtain ⟨w, hw, rfl⟩ := List.mem_map.mp hv
      rw [flatOffsets_eq_zero h hw]; simp

/-- Witness for the amended C2: the hand with the wrist at the origin and the other
twenty landmarks at `(3/4, 1/4)` for the first part, twenty-one landmarks at the origin
for the second. -/
theorem preprocessLandmark_max_abs_witness :
    (∃ out, preprocessLandmark (some (wristAtOrigin :: List.replicate 20 fingerTip))
        = some out ∧ (∃ v ∈ out, |v| = 1) ∧ ∀ v ∈ out, |v| ≤ 1) ∧
    preprocessLandmark (some (wristAtOrigin :: List.replicate 20 wristAtOrigin))
      = some (List.replicate 42 0) :=
  ⟨(preprocessLandmark_max_abs wristAtOrigin (List.replicate 20 fingerTip) (by simp)).1
      ⟨fingerTip, by simp,
        Or.inl (by norm_num [floorEps, fingerTip, wristAtOrigin, abs_of_pos])⟩,
   (preprocessLandmark_max_abs wristAtOrigin (List.replicate 20 wristAtOrigin) (by simp)).2
      (by intro p hp; simpa using hp)⟩

/-- Exact arithmetic only: in the rational embedding, adding `(dx, dy)` to all
landmarks leaves the output unchanged.  Rounding is not part of this statement; the
binary64 embedding further down treats the arithmetic of the code. -/
theorem preprocessLandmark_translate_exactArith (l : List Landmark) (dx dy : ℚ) :
    preprocessLandmark (some (translate dx dy l)) = preprocessLandmark (some l) := by
  cases l with
  | nil => rfl
  | cons b rest =>
    have ht : translate dx dy (b :: rest) =
        { x := b.x + dx, y := b.y + dy } :: translate dx dy rest := rfl
    rw [ht, preprocessLandmark_cons, ← ht, flatOffsets_translate, preprocessLandmark_cons]

/-- Exact arithmetic only: in the rational embedding, multiplying all coordinates by
a positive `k` leaves the output unchanged when all landmarks coincide with the wrist, or
when some offset from the wrist has absolute value at least `1e-6` both before and after
scaling.  Rounding is not part of this statement; the binary64 embedding further down
treats the arithmetic of the code. -/
theorem preprocessLandmark_scale_exactArith (b : Landmark) (rest : List Landmark) (k : ℚ)
    (hk : 0 < k)
    (h : (∀ p ∈ b :: rest, p = b) ∨
      ∃ p ∈ b :: rest,
        (floorEps ≤ |p.x - b.x| ∧ floorEps ≤ k * |p.x - b.x|) ∨
        (floorEps ≤ |p.y - b.y| ∧ floorEps ≤ k * |p.y - b.y|)) :
    preprocessLandmark (some (scale k (b :: rest))) = preprocessLandmark (some (b :: rest)) := by
  have hs : scale k (b :: rest) = { x := k * b.x, y := k * b.y } :: scale k rest := rfl
  rw [hs, preprocessLandmark_cons, ← hs, flatOffsets_scale, preprocessLandmark_cons]
  congr 1
  rw [List.map_map]
  apply List.map_congr_left
  intro v hv
  simp only [Function.comp_apply]
  rcases h with h | h
  · rw [flatOffsets_eq_zero h hv]; simp
  · have habs : ((flatOffsets (b :: rest) b).map fun v => k * v).map abs
        = ((flatOffsets (b :: rest) b).map abs).map fun a => k * a := by
      rw [List.map_map, List.map_map]
      apply List.map_congr_left
      intro w _
      simp [abs_mul, abs_of_pos hk]
    rw [habs]
    have h1 : ∃ p ∈ b :: rest, floorEps ≤ |p.x - b.x| ∨ floorEps ≤ |p.y - b.y| := by
      obtain ⟨p, hp, hx | hy⟩ := h
      · exact ⟨p, hp, Or.inl hx.1⟩
      · exact ⟨p, hp, Or.inr hy.1⟩
    have hk1 : ∃ p ∈ b :: rest,
        floorEps ≤ k * |p.x - b.x| ∨ floorEps ≤ k * |p.y - b.y| := by
      obtain ⟨p, hp, hx | hy⟩ := h
      · exact ⟨p, hp, Or.inl hx.2⟩
      · exact ⟨p, hp, Or.inr hy.2⟩
    have hM := mathMax_mem_of_le (exists_offset_ge h1)
    have hmax : mathMax (((flatOffsets (b :: rest) b).map abs).map fun a => k * a) floorEps
        = k * mathMax ((flatOffsets (b :: rest) b).map abs) floorEps := by
      apply le_antisymm
      · apply mathMax_le
        · intro a ha
          obtain ⟨c, hc, rfl⟩ := List.mem_map.mp ha
          exact mul_le_mul_of_nonneg_left (le_mathMax_of_mem _ hc) hk.le
        · obtain ⟨p, hp, hx | hy⟩ := hk1
          · exact le_trans hx (mul_le_mul_of_nonneg_left (le_mathMax_of_mem _
              (List.mem_map_of_mem _ (mem_flatOffsets.mpr ⟨p, hp, Or.inl rfl⟩))) hk.le)
          · exact le_trans hy (mul_le_mul_of_nonneg_left (le_mathMax_of_mem _
              (List.mem_map_of_mem _ (mem_flatOffsets.mpr ⟨p, hp, Or.inr rfl⟩))) hk.le)
      · exact le_mathMax_of_mem _ (List.mem_map_of_mem _ hM)
    rw [hmax]
    exact mul_div_mul_left _ _ hk.ne'

/-! ## Lemmas on the confirmation counter -/

theorem gameLogic_of_le {s : ConfState} {label : String} (maxIdx : Int)
    (h : REQUIRED_FRAMES ≤ countedFrames s label) :
    gameLogic s label maxIdx =
      ({ lastPredLabel := label, sameLetterCounter := 0 },
       { frames := countedFrames s label,
         remainingSeconds := remainingSeconds (countedFrames s label),
         captured := some (label, maxIdx) }) := by
  unfold gameLogic
  exact if_pos h

theorem gameLogic_of_lt {s : ConfState} {label : String} (maxIdx : Int)
    (h : countedFrames s label < REQUIRED_FRAMES) :
    gameLogic s label maxIdx =
      ({ lastPredLabel := label, sameLetterCounter := countedFrames s label },
       { frames := countedFrames s label,
         remainingSeconds := remainingSeconds (countedFrames s label),
         captured := none }) := by
  unfold gameLogic
  exact if_neg (Nat.not_le.mpr h)

theorem gameLogic_counter_lt (s : ConfState) (label : String) (maxIdx : Int) :
    (gameLogic s label maxIdx).1.sameLetterCounter < REQUIRED_FRAMES := by
  rcases Nat.lt_or_ge (countedFrames s label) REQUIRED_FRAMES with h | h
  · rw [gameLogic_of_lt maxIdx h]; exact h
  · rw [gameLogic_of_le maxIdx h]
    show 0 < REQUIRED_FRAMES
    decide

theorem countedFrames_same (label : String) (c : Nat) :
    countedFrames { lastPredLabel := label, sameLetterCounter := c } label = c + 1 := by
  simp [countedFrames]

theorem gameLogic_same_label (label : String) (c : Nat) (maxIdx : Int)
    (hc : c < REQUIRED_FRAMES) :
    (gameLogic { lastPredLabel := label, sameLetterCounter := c } label maxIdx).1
      = { lastPredLabel := label, sameLetterCounter := (c + 1) % REQUIRED_FRAMES } := by
  have hcount := countedFrames_same label c
  rcases Nat.lt_or_ge (c + 1) REQUIRED_FRAMES with h | h
  · rw [gameLogic_of_lt maxIdx (by rw [hcount]; exact h), hcount, Nat.mod_eq_of_lt h]
  · rw [gameLogic_of_le maxIdx (by rw [hcount]; exact h)]
    have h150 : c + 1 = REQUIRED_FRAMES := by
      simp only [REQUIRED_FRAMES] at hc h ⊢
      omega
    rw [h150, Nat.mod_self]

theorem feedLabels_same_label (label : String) (maxIdx : Int) (n c : Nat)
    (hc : c < REQUIRED_FRAMES) :
    (feedLabels { lastPredLabel := label, sameLetterCounter := c }
        (List.replicate n (label, maxIdx))).1
      = { lastPredLabel := label, sameLetterCounter := (c + n) % REQUIRED_FRAMES } := by
  induction n generalizing c with
  | zero =>
    simp only [REQUIRED_FRAMES] at hc ⊢
    simp [feedLabels, Nat.mod_eq_of_lt hc]
  | succ k ih =>
    have hlt : (c + 1) % REQUIRED_FRAMES < REQUIRED_FRAMES :=
      Nat.mod_lt _ (by decide)
    simp only [List.replicate_succ, feedLabels]
    rw [gameLogic_same_label label c maxIdx hc, ih _ hlt]
    simp only [REQUIRED_FRAMES]
    congr 1
    omega

theorem gameLogic_first_label (label : String) (maxIdx : Int) (hl : label ≠ "") :
    (gameLogic initialState label maxIdx).1
      = { lastPredLabel := label, sameLetterCounter := 0 } := by
  have hcount : countedFrames initialState label = 0 := by
    simp [countedFrames, initialState, hl]
  rw [gameLogic_of_lt maxIdx (by rw [hcount]; decide), hcount]

theorem onResults_counter_le (rt : Runtime) (s : ConfState)
    (multiHandLandmarks : Option (List (List RawLandmark)))
    (hs : s.sameLetterCounter ≤ REQUIRED_FRAMES - 1) :
    (onResults rt s multiHandLandmarks).1.sameLetterCounter ≤ REQUIRED_FRAMES - 1 := by
  have hg : ∀ label maxIdx,
      (gameLogic s label maxIdx).1.sameLetterCounter ≤ REQUIRED_FRAMES - 1 := by
    intro label maxIdx
    have := gameLogic_counter_lt s label maxIdx
    omega
  unfold onResults
  split
  · dsimp only
    split
    · exact hs
    · split
      · exact hs
      · exact hs
      · try dsimp only
        split
        · exact hs
        · exact hg _ _
  · exact hs

theorem runFrames_counter_le (s : ConfState)
    (frames : List (Runtime × Option (List (List RawLandmark))))
    (hs : s.sameLetterCounter ≤ REQUIRED_FRAMES - 1) :
    (runFrames s frames).sameLetterCounter ≤ REQUIRED_FRAMES - 1 := by
  induction frames generalizing s with
  | nil => exact hs
  | cons f rest ih =>
    exact ih _ (onResults_counter_le f.1 s f.2 hs)

/-- On a frame with a hand whose scores have a non-negative argmax, `onResults` is
lines 192-206 applied to the resolved label. -/
theorem onResults_resolved (rt : Runtime) (s : ConfState) (lm : List RawLandmark)
    (more : List (List RawLandmark)) (input scores : List ℚ)
    (hpre : preprocessLandmark (some (lm.map fun p => ({ x := p.x, y := p.y } : Landmark)))
      = some input)
    (hscores : predictFromTFLite rt.tfliteModel input = .ok (.vec scores))
    (hidx : 0 ≤ argmaxIndex scores) :
    onResults rt s (some (lm :: more)) =
      ((gameLogic s (getLabelForIndex rt.toUpperCase rt.labelList (argmaxIndex scores))
          (argmaxIndex scores)).1,
       .tracked (argmaxIndex scores)
          (getLabelForIndex rt.toUpperCase rt.labelList (argmaxIndex scores))
          (gameLogic s (getLabelForIndex rt.toUpperCase rt.labelList (argmaxIndex scores))
            (argmaxIndex scores)).2) := by
  simp [onResults, hpre, hscores, Int.not_lt.mpr hidx]

/-! ## Claims on the confirmation counter -/

set_option maxRecDepth 100000

/-- C5 as stated fails: after 150 consecutive frames resolving to the label "В" with
class index 0, starting from the initial state, line 203 has run on none of the 150
frames; in particular the confirmation does not fire on frame 150. -/
theorem no_capture_within_150_frames :
    (feedLabels initialState (List.replicate 150 ("В", 0))).2.map (fun t => t.captured)
      = List.replicate 150 none := by
  decide

/-- C5, amended: starting from the initial state, with `REQUIRED_FRAMES = 150`,
consecutive frames that all resolve to the label "В" with class index 0 make the
confirmation fire on frame 151, with payload ("В", 0), and on no earlier frame (the
first frame sets the count to 0, so the count reaches 150 on frame 151). -/
theorem capture_on_frame_151 :
    (feedLabels initialState (List.replicate 151 ("В", 0))).2.map (fun t => t.captured)
      = List.replicate 150 none ++ [some ("В", 0)] := by
  decide

/-- C6 as stated fails for `N = 151`: after the 151st of 151 consecutive frames
resolving to "В" the stored `sameLetterCounter` is 0, not `151 - 1 = 150`. -/
theorem counter_after_151_frames :
    (1 ≤ 151) ∧
    (feedLabels initialState (List.replicate 151 ("В", 0))).1.sameLetterCounter = 0 ∧
    (feedLabels initialState (List.replicate 151 ("В", 0))).1.sameLetterCounter ≠ 151 - 1 := by
  decide

/-- C6, amended: for every `N ≥ 1` and every non-empty label `L` (a label returned
by `getLabelForIndex` is never empty), starting from the initial state, after the `N`th
of `N` consecutive frames that all resolve to `L` the stored `sameLetterCounter` equals
`(N - 1) mod REQUIRED_FRAMES`; this is `N - 1` as long as `N ≤ REQUIRED_FRAMES`. -/
theorem counter_after_same_label (N : Nat) (L : String) (maxIdx : Int)
    (hN : 1 ≤ N) (hL : L ≠ "") :
    (feedLabels initialState (List.replicate N (L, maxIdx))).1.sameLetterCounter
        = (N - 1) % REQUIRED_FRAMES ∧
    (N ≤ REQUIRED_FRAMES →
      (feedLabels initialState (List.replicate N (L, maxIdx))).1.sameLetterCounter = N - 1) := by
  obtain ⟨n, rfl⟩ : ∃ n, N = n + 1 := ⟨N - 1, by omega⟩
  have hrun : (feedLabels initialState (List.replicate (n + 1) (L, maxIdx))).1
      = { lastPredLabel := L, sameLetterCounter := n % REQUIRED_FRAMES } := by
    simp only [List.replicate_succ, feedLabels]
    rw [gameLogic_first_label L maxIdx hL,
      feedLabels_same_label L maxIdx n 0 (by decide), Nat.zero_add]
  rw [hrun]
  simp only [REQUIRED_FRAMES, Nat.add_sub_cancel]
  refine ⟨trivial, fun h => ?_⟩
  omega

/-- Witness for the amended C6: `N = 3` frames resolving to "В". -/
theorem counter_after_same_label_witness :
    (1 ≤ 3) ∧ ("В" ≠ "") ∧
    (feedLabels initialState (List.replicate 3 ("В", 0))).1.sameLetterCounter
        = (3 - 1) % REQUIRED_FRAMES ∧
    (3 ≤ REQUIRED_FRAMES →
      (feedLabels initialState (List.replicate 3 ("В", 0))).1.sameLetterCounter = 3 - 1) :=
  ⟨by decide, by decide, counter_after_same_label 3 "В" 0 (by decide) (by decide)⟩

/-- C7: for every confirmation state and every resolved label, one pass through lines
192-206 fires the confirmation exactly when the count given by the increment-or-reset
rule (old count plus one if the label equals the last label, else 0) is at least
`REQUIRED_FRAMES`; when it fires, the payload is the label with its class index, the
stored count is 0 right afterwards, and the next frame with the same label does not
fire again. -/
theorem confirmation_pulse (s : ConfState) (L : String) (maxIdx : Int) :
    ((gameLogic s L maxIdx).2.captured.isSome = true ↔
      REQUIRED_FRAMES ≤ (if L = s.lastPredLabel then s.sameLetterCounter + 1 else 0)) ∧
    ((gameLogic s L maxIdx).2.captured.isSome = true →
      (gameLogic s L maxIdx).2.captured = some (L, maxIdx) ∧
      (gameLogic s L maxIdx).1.sameLetterCounter = 0 ∧
      ∀ nextIdx, (gameLogic (gameLogic s L maxIdx).1 L nextIdx).2.captured = none) := by
  have hc : (if L = s.lastPredLabel then s.sameLetterCounter + 1 else 0)
      = countedFrames s L := rfl
  rw [hc]
  rcases Nat.lt_or_ge (countedFrames s L) REQUIRED_FRAMES with h | h
  · rw [gameLogic_of_lt maxIdx h]
    simp [Nat.not_le.mpr h]
  · rw [gameLogic_of_le maxIdx h]
    refine ⟨by simp [h], fun _ => ⟨rfl, rfl, fun nextIdx => ?_⟩⟩
    rw [gameLogic_of_lt nextIdx (by rw [countedFrames_same]; decide)]

/-- C10: in every state reached from the initial confirmation state by any sequence
of calls of `onResults` (any collaborators and detector results per frame: hand or no
hand, prediction success or failure, any labels), the stored `sameLetterCounter` is at
most `REQUIRED_FRAMES - 1`, so it never rests at or above the threshold. -/
theorem counter_never_rests_at_threshold
    (frames : List (Runtime × Option (List (List RawLandmark)))) :
    (runFrames initialState frames).sameLetterCounter ≤ REQUIRED_FRAMES - 1 ∧
    (runFrames initialState frames).sameLetterCounter < REQUIRED_FRAMES := by
  have h := runFrames_counter_le initialState frames (by decide)
  refine ⟨h, ?_⟩
  simp only [REQUIRED_FRAMES] at h ⊢
  omega

/-! ## Label resolver -/

theorem lookup_mem_values (k : String) (t : String) (l : List (String × String))
    (h : l.lookup k = some t) : t ∈ l.map Prod.snd := by
  induction l with
  | nil => simp [List.lookup] at h
  | cons e rest ih =>
    obtain ⟨a, b⟩ := e
    by_cases hk : (k == a) = true
    · simp only [List.lookup, hk] at h
      simp only [Option.some.injEq] at h
      simp [h]
    · simp only [Bool.not_eq_true] at hk
      simp only [List.lookup, hk] at h
      simp [ih h]

theorem mapping_values_ne_empty : ∀ t ∈ mapping.map Prod.snd, t ≠ "" := by
  decide

theorem toDigitsCore_ne_nil (b : Nat) (f n : Nat) (ds : List Char) (h : 0 < f ∨ ds ≠ []) :
    Nat.toDigitsCore b f n ds ≠ [] := by
  induction f generalizing n ds with
  | zero =>
    rcases h with h | h
    · omega
    · simpa [Nat.toDigitsCore] using h
  | succ k ih =>
    unfold Nat.toDigitsCore
    dsimp only
    split
    · simp
    · exact ih _ _ (Or.inr (by simp))

theorem toString_nat_ne_empty (n : Nat) : toString n ≠ "" := by
  show Nat.repr n ≠ ""
  unfold Nat.repr Nat.toDigits List.asString
  intro h
  have h2 := congrArg String.data h
  exact toDigitsCore_ne_nil 10 (n + 1) n [] (Or.inl (Nat.succ_pos _)) h2

theorem toString_int_ne_empty (i : Int) : toString i ≠ "" := by
  cases i with
  | ofNat m => exact toString_nat_ne_empty m
  | negSucc m =>
    show "-" ++ toString (Nat.succ m) ≠ ""
    intro h
    have h2 := congrArg String.length h
    simp only [String.length_append] at h2
    have h3 : "-".length = 1 := by decide
    rw [h3] at h2
    have h4 : "".length = 0 := by decide
    rw [h4] at h2
    omega

/-- Every label that `getLabelForIndex` returns is a non-empty string. -/
theorem getLabelForIndex_ne_empty (toUpperCase : String → String)
    (labelList : Option (List String)) (idx : Int) :
    getLabelForIndex toUpperCase labelList idx ≠ "" := by
  unfold getLabelForIndex
  split
  · exact toString_int_ne_empty idx
  · split
    · exact toString_int_ne_empty idx
    · split
      · exact toString_int_ne_empty idx
      · rename_i hne
        unfold orElse
        split
        · split
          · exact hne
          · assumption
        · exact hne

/-- C8: for every loaded label table `T` (its entries are non-empty lines) and class
index `i`: when `0 ≤ i` and `T[i]` is the label `lab`, `getLabelForIndex` returns the
transliteration of the upper-cased `lab` if that is a key of the `mapping` table, and
`lab` itself if it is not; when `i` is out of range it returns the decimal string of
`i`. -/
theorem getLabelForIndex_spec (toUpperCase : String → String) (T : List String) (i : Int)
    (hT : ∀ s ∈ T, s ≠ "") :
    (∀ lab t, 0 ≤ i → T[i.toNat]? = some lab →
      mapping.lookup (toUpperCase lab) = some t →
      getLabelForIndex toUpperCase (some T) i = t) ∧
    (∀ lab, 0 ≤ i → T[i.toNat]? = some lab →
      mapping.lookup (toUpperCase lab) = none →
      getLabelForIndex toUpperCase (some T) i = lab) ∧
    ((i < 0 ∨ (T.length : Int) ≤ i) →
      getLabelForIndex toUpperCase (some T) i = toString i) := by
  refine ⟨?_, ?_, ?_⟩
  · intro lab t hi hlab ht
    have hne : lab ≠ "" := hT lab (List.getElem?_mem hlab)
    have htne : t ≠ "" := mapping_values_ne_empty t (lookup_mem_values _ _ _ ht)
    simp [getLabelForIndex, labelAt, hi, hlab, hne, ht, orElse, htne]
  · intro lab hi hlab hnone
    have hne : lab ≠ "" := hT lab (List.getElem?_mem hlab)
    simp [getLabelForIndex, labelAt, hi, hlab, hne, hnone, orElse]
  · intro h
    rcases h with h | h
    · simp [getLabelForIndex, labelAt, Int.not_le.mpr h]
    · have h0 : 0 ≤ i := le_trans (Int.ofNat_nonneg _) h
      have hlen : T.length ≤ i.toNat := by omega
      simp [getLabelForIndex, labelAt, h0, List.getElem?_eq_none hlen]

/-- Witness for C8: with the table `["V", "A"]`, index 0 gives "В", index 1 gives "А"
and index 5 gives "5"; with the table `["Q"]`, index 0 gives "Q". -/
theorem getLabelForIndex_spec_witness :
    getLabelForIndex asciiUpper (some ["V", "A"]) 0 = "В" ∧
    getLabelForIndex asciiUpper (some ["V", "A"]) 1 = "А" ∧
    getLabelForIndex asciiUpper (some ["V", "A"]) 5 = "5" ∧
    getLabelForIndex asciiUpper (some ["Q"]) 0 = "Q" :=
  ⟨(getLabelForIndex_spec asciiUpper ["V", "A"] 0 (by decide)).1 "V" "В"
      (by decide) (by decide) (by decide),
   (getLabelForIndex_spec asciiUpper ["V", "A"] 1 (by decide)).1 "A" "А"
      (by decide) (by decide) (by decide),
   (getLabelForIndex_spec asciiUpper ["V", "A"] 5 (by decide)).2.2 (Or.inr (by decide)),
   (getLabelForIndex_spec asciiUpper ["Q"] 0 (by decide)).2.1 "Q"
      (by decide) (by decide) (by decide)⟩

/-! ## Inference adapter -/

/-- C9: for every loaded model `m` and input vector on which the `predict` convention
is absent or throws: (a) `run` is attempted, and when it returns a non-empty score
array, or a keyed object whose first field holds the scores, `predictFromTFLite`
returns exactly those scores; (b) when `run` is absent or throws as well, the result is
the error of line 166; (c) and `onResults`, called in any confirmation state `s` on a
frame whose normalised landmarks are that input, then ends in its `catch` branch with
the confirmation state still `s`. -/
theorem predictFromTFLite_fallback (m : TFLiteModel) (inputArray : List ℚ)
    (hpredict : m.predict = none ∨
      ∃ predict, m.predict = some predict ∧ predict inputArray = .throws) :
    (∀ run data, m.run = some run → run inputArray = .arrayLike data → data ≠ [] →
      predictFromTFLite (some m) inputArray = .ok (.vec data)) ∧
    (∀ run key data more, m.run = some run →
      run inputArray = .keyed ((key, some data) :: more) →
      predictFromTFLite (some m) inputArray = .ok (.vec data)) ∧
    ((m.run = none ∨ ∃ run, m.run = some run ∧ run inputArray = .throws) →
      predictFromTFLite (some m) inputArray = .error .apiMismatch ∧
      ∀ (rt : Runtime) (s : ConfState) (lm : List RawLandmark)
        (more : List (List RawLandmark)),
        rt.tfliteModel = some m →
        preprocessLandmark (some (lm.map fun p => ({ x := p.x, y := p.y } : Landmark)))
          = some inputArray →
        onResults rt s (some (lm :: more)) = (s, .predictionError)) := by
  have hfall : predictFromTFLite (some m) inputArray = runFallback m inputArray := by
    rcases hpredict with h | ⟨predict, h, hthrow⟩
    · simp [predictFromTFLite, h]
    · simp [predictFromTFLite, h, hthrow]
  refine ⟨?_, ?_, ?_⟩
  · intro run data hrun hres hne
    rw [hfall]
    simp [runFallback, hrun, hres, hne]
  · intro run key data more hrun hres
    rw [hfall]
    simp [runFallback, hrun, hres]
  · intro hrun
    have herr : predictFromTFLite (some m) inputArray = .error .apiMismatch := by
      rw [hfall]
      rcases hrun with h | ⟨run, h, hthrow⟩
      · simp [runFallback, h]
      · simp [runFallback, h, hthrow]
    refine ⟨herr, ?_⟩
    intro rt s lm more hm hpre
    simp [onResults, hpre, hm, herr]

/-- Witness for C9: `fallbackModel` (its `predict` throws, its `run` returns two
scores) and `brokenModel` (both throw), the latter also inside `onResults` on a frame
with a one-landmark hand. -/
theorem predictFromTFLite_fallback_witness :
    predictFromTFLite (some fallbackModel) [0, 0] = .ok (.vec [1 / 10, 9 / 10]) ∧
    predictFromTFLite (some brokenModel) [0, 0] = .error .apiMismatch ∧
    onResults brokenRuntime { lastPredLabel := "В", sameLetterCounter := 7 }
        (some [singlePointHand])
      = ({ lastPredLabel := "В", sameLetterCounter := 7 }, .predictionError) :=
  ⟨(predictFromTFLite_fallback fallbackModel [0, 0]
      (Or.inr ⟨fun _ => .throws, rfl, rfl⟩)).1
      (fun _ => .arrayLike [1 / 10, 9 / 10]) [1 / 10, 9 / 10] rfl rfl (by simp),
   ((predictFromTFLite_fallback brokenModel [0, 0]
      (Or.inr ⟨fun _ => .throws, rfl, rfl⟩)).2.2
      (Or.inr ⟨fun _ => .throws, rfl, rfl⟩)).1,
   ((predictFromTFLite_fallback brokenModel [0, 0]
      (Or.inr ⟨fun _ => .throws, rfl, rfl⟩)).2.2
      (Or.inr ⟨fun _ => .throws, rfl, rfl⟩)).2
      brokenRuntime { lastPredLabel := "В", sameLetterCounter := 7 }
      singlePointHand [] rfl
      (by norm_num [singlePointHand, preprocessLandmark, flatOffsets, subtractBase, flat,
        mathMax, floorEps])⟩

/-! ## Lemmas on binary64 rounding -/

theorem log2Fuel_fuel (f g n : Nat) (hf : n ≤ f) (hg : n ≤ g) :
    log2Fuel f n = log2Fuel g n := by
  induction f generalizing g n with
  | zero =>
    have hn : n = 0 := by omega
    subst hn
    cases g with
    | zero => rfl
    | succ g => simp [log2Fuel]
  | succ f ih =>
    cases g with
    | zero =>
      have hn : n = 0 := by omega
      subst hn
      simp [log2Fuel]
    | succ g =>
      unfold log2Fuel
      by_cases h2 : n < 2
      · simp [h2]
      · simp only [h2, if_false]
        rw [ih g (n / 2) (by omega) (by omega)]

theorem log2Fuel_succ (fuel n : Nat) :
    log2Fuel (fuel + 1) n = if n < 2 then 0 else log2Fuel fuel (n / 2) + 1 := rfl

theorem log2Floor_two_mul (n : Nat) (hn : 1 ≤ n) :
    log2Floor (2 * n) = log2Floor n + 1 := by
  unfold log2Floor
  obtain ⟨m, hm⟩ : ∃ m, 2 * n = m + 1 := ⟨2 * n - 1, by omega⟩
  rw [hm, log2Fuel_succ]
  have h2 : ¬ (m + 1 < 2) := by omega
  rw [if_neg h2]
  have hdiv : (m + 1) / 2 = n := by omega
  rw [hdiv, log2Fuel_fuel m n n (by omega) (le_refl n)]

theorem log2Floor_pow_mul (j n : Nat) (hn : 1 ≤ n) :
    log2Floor (2 ^ j * n) = j + log2Floor n := by
  induction j with
  | zero => simp
  | succ j ih =>
    have hpos : 1 ≤ 2 ^ j * n := Nat.one_le_iff_ne_zero.mpr (by positivity)
    rw [pow_succ, mul_comm (2 ^ j) 2, mul_assoc, log2Floor_two_mul _ hpos, ih]
    omega

/-- The tie-breaking choice of `roundMag` for quotient `f`, remainder `r`, divisor `q`. -/
theorem roundMag_def (n d : Nat) :
    roundMag n d =
      (if 2 * (n % (d * 2 ^ (log2Floor (n / d) - 52))) < d * 2 ^ (log2Floor (n / d) - 52)
        then n / (d * 2 ^ (log2Floor (n / d) - 52))
        else if d * 2 ^ (log2Floor (n / d) - 52) < 2 * (n % (d * 2 ^ (log2Floor (n / d) - 52)))
          then n / (d * 2 ^ (log2Floor (n / d) - 52)) + 1
          else if n / (d * 2 ^ (log2Floor (n / d) - 52)) % 2 = 0
            then n / (d * 2 ^ (log2Floor (n / d) - 52))
            else n / (d * 2 ^ (log2Floor (n / d) - 52)) + 1)
        * 2 ^ (log2Floor (n / d) - 52) := rfl

theorem roundMag_mul_mul (c n d : Nat) (hc : 0 < c) :
    roundMag (c * n) (c * d) = roundMag n d := by
  rw [roundMag_def, roundMag_def]
  have hq : c * n / (c * d) = n / d := Nat.mul_div_mul_left n d hc
  rw [hq]
  generalize log2Floor (n / d) - 52 = s
  have hD : c * d * 2 ^ s = c * (d * 2 ^ s) := by ring
  rw [hD, Nat.mul_div_mul_left _ _ hc, Nat.mul_mod_mul_left]
  have h1 : (2 * (c * (n % (d * 2 ^ s))) < c * (d * 2 ^ s)) ↔
      (2 * (n % (d * 2 ^ s)) < d * 2 ^ s) := by
    rw [show 2 * (c * (n % (d * 2 ^ s))) = c * (2 * (n % (d * 2 ^ s))) by ring]
    exact Nat.mul_lt_mul_left hc
  have h2 : (c * (d * 2 ^ s) < 2 * (c * (n % (d * 2 ^ s)))) ↔
      (d * 2 ^ s < 2 * (n % (d * 2 ^ s))) := by
    rw [show 2 * (c * (n % (d * 2 ^ s))) = c * (2 * (n % (d * 2 ^ s))) by ring]
    exact Nat.mul_lt_mul_left hc
  simp only [h1, h2]

theorem roundMag_zero (d : Nat) : roundMag 0 d = 0 := by
  rw [roundMag_def]
  simp

theorem roundMag_pow_mul (j n : Nat) : roundMag (2 ^ j * n) 1 = 2 ^ j * roundMag n 1 := by
  rcases Nat.eq_zero_or_pos n with hn | hn
  · subst hn; simp [roundMag_zero]
  rw [roundMag_def, roundMag_def]
  simp only [Nat.div_one, one_mul]
  rw [log2Floor_pow_mul j n hn]
  by_cases hL : 52 ≤ log2Floor n
  · obtain ⟨s, hs⟩ : ∃ s, log2Floor n = 52 + s := ⟨log2Floor n - 52, by omega⟩
    have e1 : j + log2Floor n - 52 = j + s := by omega
    have e2 : log2Floor n - 52 = s := by omega
    rw [e1, e2]
    have hp : (0 : Nat) < 2 ^ j := by positivity
    have hpow : 2 ^ (j + s) = 2 ^ j * 2 ^ s := pow_add 2 j s
    rw [hpow, Nat.mul_div_mul_left _ _ hp, Nat.mul_mod_mul_left]
    have h1 : (2 * (2 ^ j * (n % 2 ^ s)) < 2 ^ j * 2 ^ s) ↔ (2 * (n % 2 ^ s) < 2 ^ s) := by
      rw [show 2 * (2 ^ j * (n % 2 ^ s)) = 2 ^ j * (2 * (n % 2 ^ s)) by ring]
      exact Nat.mul_lt_mul_left hp
    have h2 : (2 ^ j * 2 ^ s < 2 * (2 ^ j * (n % 2 ^ s))) ↔ (2 ^ s < 2 * (n % 2 ^ s)) := by
      rw [show 2 * (2 ^ j * (n % 2 ^ s)) = 2 ^ j * (2 * (n % 2 ^ s)) by ring]
      exact Nat.mul_lt_mul_left hp
    simp only [h1, h2]
    ring
  · have e2 : log2Floor n - 52 = 0 := by omega
    obtain ⟨t, ht⟩ : ∃ t, j = (j + log2Floor n - 52) + t :=
      ⟨j - (j + log2Floor n - 52), by omega⟩
    rw [e2]
    simp only [pow_zero, Nat.mod_one, Nat.div_one, Nat.mul_zero, Nat.zero_lt_one, if_true,
      mul_one]
    generalize j + log2Floor n - 52 = s at ht
    subst ht
    have hp : (0 : Nat) < 2 ^ s := by positivity
    have hdiv : 2 ^ (s + t) * n = 2 ^ s * (2 ^ t * n) := by rw [pow_add]; ring
    rw [hdiv, Nat.mul_div_cancel_left _ hp, Nat.mul_mod_right]
    simp only [Nat.mul_zero, hp, if_true]
    ring

set_option exponentiation.threshold 5000

theorem floor64_eq : floor64 = .fin floorUnits := by
  decide!

theorem floorUnits_pos : 0 < floorUnits := by
  decide!

theorem isFinite_iff (v : F64) : isFinite v = true ↔ ∃ w, v = .fin w := by
  cases v <;> simp [isFinite]

theorem isFinite_scaleUp (j : Nat) (v : F64) : isFinite (scaleUp j v) = isFinite v := by
  cases v <;> rfl

theorem abs64_scaleUp (j : Nat) (v : F64) : abs64 (scaleUp j v) = scaleUp j (abs64 v) := by
  cases v with
  | fin w =>
    show F64.fin |2 ^ j * w| = F64.fin (2 ^ j * |w|)
    rw [abs_mul, abs_of_pos (by positivity : (0 : Int) < 2 ^ j)]
  | inf s => rfl
  | nan => rfl

theorem roundInt_pow_mul (j : Nat) (z : Int)
    (h : isFinite (roundInt (2 ^ j * z)) = true) :
    roundInt (2 ^ j * z) = scaleUp j (roundInt z) := by
  have hp : (0 : Int) < 2 ^ j := by positivity
  have hneg : decide (2 ^ j * z < 0) = decide (z < 0) := by
    have : (2 ^ j * z < 0) ↔ (z < 0) := by
      constructor
      · intro h1
        by_contra h2
        have : 0 ≤ 2 ^ j * z := mul_nonneg hp.le (not_lt.mp h2)
        omega
      · intro h1
        exact mul_neg_of_pos_of_neg hp h1
    simp [this]
  have habs : (2 ^ j * z).natAbs = 2 ^ j * z.natAbs := by
    rw [Int.natAbs_mul, Int.natAbs_pow]; rfl
  have hval : roundInt (2 ^ j * z) =
      roundUnits (decide (z < 0)) (2 ^ j * z.natAbs) 1 := by
    unfold roundInt
    rw [hneg, habs]
  rw [hval] at h ⊢
  unfold roundInt
  unfold roundUnits at h ⊢
  rw [roundMag_pow_mul] at h ⊢
  have hle : roundMag z.natAbs 1 ≤ 2 ^ j * roundMag z.natAbs 1 :=
    Nat.le_mul_of_pos_left _ (by positivity)
  by_cases hov : overflowUnits ≤ 2 ^ j * roundMag z.natAbs 1
  · rw [if_pos hov] at h
    simp [isFinite] at h
  · have hov2 : ¬ overflowUnits ≤ roundMag z.natAbs 1 := by omega
    rw [if_neg hov, if_neg hov2]
    by_cases hz : z < 0
    · simp [hz, scaleUp]
    · simp [hz, scaleUp]

theorem mem_flat64 {v : F64} {t : List (F64 × F64)} :
    v ∈ flat64 t ↔ ∃ p ∈ t, v = p.1 ∨ v = p.2 := by
  induction t with
  | nil => simp [flat64]
  | cons p rest ih =>
    simp only [flat64, List.mem_cons, ih, exists_eq_or_imp, or_assoc]

theorem flat64_map_map (g : F64 → F64) (t : List (F64 × F64)) :
    flat64 (t.map fun p => (g p.1, g p.2)) = (flat64 t).map g := by
  induction t with
  | nil => rfl
  | cons p rest ih => simp [flat64, ih]

theorem preprocessLandmark64_cons (b : Landmark64) (rest : List Landmark64) :
    preprocessLandmark64 (some (b :: rest)) =
      some ((flatOffsets64 (b :: rest) b).map fun v =>
        div64 v (mathMax64 ((flatOffsets64 (b :: rest) b).map abs64) floor64)) := rfl

theorem flatOffsets64_hand64 (pts : List (Int × Int)) (bx bY : Int) :
    flatOffsets64 (hand64 pts) { x := .fin bx, y := .fin bY } =
      flat64 (pts.map fun p => (roundInt (p.1 - bx), roundInt (p.2 - bY))) := by
  unfold flatOffsets64 hand64
  rw [List.map_map]
  rfl

theorem flatOffsets64_timesPow2 (j : Nat) (pts : List (Int × Int)) (bx bY : Int) :
    flatOffsets64 (hand64 (timesPow2 j pts)) { x := .fin (2 ^ j * bx), y := .fin (2 ^ j * bY) } =
      flat64 (pts.map fun p =>
        (roundInt (2 ^ j * (p.1 - bx)), roundInt (2 ^ j * (p.2 - bY)))) := by
  unfold flatOffsets64 hand64 timesPow2
  rw [List.map_map, List.map_map]
  congr 1
  apply List.map_congr_left
  intro p _
  simp [sub64, mul_sub]

theorem mathMax64_fin (A : List F64) (e : Int) (hA : ∀ v ∈ A, isFinite v = true) :
    ∃ m, mathMax64 A (.fin e) = .fin m ∧ e ≤ m ∧ (∀ a, F64.fin a ∈ A → a ≤ m) ∧
      (m = e ∨ F64.fin m ∈ A) := by
  induction A with
  | nil => exact ⟨e, rfl, le_refl e, by simp, Or.inl rfl⟩
  | cons v A ih =>
    obtain ⟨m, hm, hem, hall, hmem⟩ := ih fun w hw => hA w (List.mem_cons_of_mem _ hw)
    obtain ⟨a0, rfl⟩ := (isFinite_iff v).mp (hA v (List.mem_cons_self _ _))
    refine ⟨max a0 m, ?_, le_trans hem (le_max_right _ _), ?_, ?_⟩
    · show max64 (.fin a0) (mathMax64 A (.fin e)) = .fin (max a0 m)
      rw [hm]; rfl
    · intro a ha
      rcases List.mem_cons.mp ha with h | h
      · have : a = a0 := by simpa using h
        rw [this]; exact le_max_left _ _
      · exact le_trans (hall a h) (le_max_right _ _)
    · rcases le_total a0 m with h | h
      · rw [max_eq_right h]
        rcases hmem with h1 | h1
        · exact Or.inl h1
        · exact Or.inr (List.mem_cons_of_mem _ h1)
      · rw [max_eq_left h]
        exact Or.inr (List.mem_cons_self _ _)

theorem div64_scaleUp (j : Nat) (w m : Int) (hm : 0 < m) :
    div64 (.fin (2 ^ j * w)) (.fin (2 ^ j * m)) = div64 (.fin w) (.fin m) := by
  have hp : (0 : Int) < 2 ^ j := by positivity
  have hpm : (0 : Int) < 2 ^ j * m := mul_pos hp hm
  have hnegw : decide (2 ^ j * w < 0) = decide (w < 0) := by
    have : (2 ^ j * w < 0) ↔ (w < 0) := by
      constructor
      · intro h1
        by_contra h2
        have : 0 ≤ 2 ^ j * w := mul_nonneg hp.le (not_lt.mp h2)
        omega
      · intro h1
        exact mul_neg_of_pos_of_neg hp h1
    simp [this]
  have hnegm : decide (2 ^ j * m < 0) = decide (m < 0) := by
    have h1 : ¬ (2 ^ j * m < 0) := not_lt.mpr hpm.le
    have h2 : ¬ (m < 0) := not_lt.mpr hm.le
    simp [h1, h2]
  have habsw : (2 ^ j * w).natAbs = 2 ^ j * w.natAbs := by
    rw [Int.natAbs_mul, Int.natAbs_pow]; rfl
  have habsm : (2 ^ j * m).natAbs = 2 ^ j * m.natAbs := by
    rw [Int.natAbs_mul, Int.natAbs_pow]; rfl
  simp only [div64]
  rw [if_neg hpm.ne', if_neg hm.ne', hnegw, hnegm, habsw, habsm]
  unfold roundUnits
  rw [show 2 ^ j * w.natAbs * unitShift = 2 ^ j * (w.natAbs * unitShift) by ring,
    roundMag_mul_mul _ _ _ (by positivity)]

/-- Two hands whose coordinates differ by the exact factor `2^j` have the same
normalised output, when no offset of the larger hand overflows and the floor `1e-6`
decides neither maximum. -/
theorem preprocessLandmark64_timesPow2 (b : Int × Int) (rest : List (Int × Int)) (j : Nat)
    (hfin : ∀ v ∈ flatOffsets64 (hand64 (timesPow2 j (b :: rest)))
      { x := .fin (2 ^ j * b.1), y := .fin (2 ^ j * b.2) }, isFinite v = true)
    (hfloor : (∀ p ∈ rest, p = b) ∨
      ∃ v ∈ flatOffsets64 (hand64 (b :: rest)) { x := .fin b.1, y := .fin b.2 },
        le64 floor64 (abs64 v) = true) :
    preprocessLandmark64 (some (hand64 (timesPow2 j (b :: rest)))) =
      preprocessLandmark64 (some (hand64 (b :: rest))) := by
  have hbig : hand64 (timesPow2 j (b :: rest)) =
      { x := .fin (2 ^ j * b.1), y := .fin (2 ^ j * b.2) } :: hand64 (timesPow2 j rest) := rfl
  have hsmall : hand64 (b :: rest) =
      { x := .fin b.1, y := .fin b.2 } :: hand64 rest := rfl
  rw [hbig, preprocessLandmark64_cons, ← hbig, hsmall, preprocessLandmark64_cons, ← hsmall]
  rw [flatOffsets64_timesPow2] at hfin ⊢
  rw [flatOffsets64_hand64] at hfloor ⊢
  congr 1
  rcases hfloor with hall | hfloor
  · have hsame : (List.map (fun p : Int × Int =>
          (roundInt (2 ^ j * (p.1 - b.1)), roundInt (2 ^ j * (p.2 - b.2)))) (b :: rest))
        = List.map (fun p : Int × Int =>
          (roundInt (p.1 - b.1), roundInt (p.2 - b.2))) (b :: rest) := by
      apply List.map_congr_left
      intro p hp
      have hpb : p = b := by
        rcases List.mem_cons.mp hp with h | h
        · exact h
        · exact hall p h
      rw [hpb]
      simp
    rw [hsame]
  · -- the offsets of the larger hand are those of the smaller one times `2^j`
    have hup : (List.map (fun p : Int × Int =>
          (roundInt (2 ^ j * (p.1 - b.1)), roundInt (2 ^ j * (p.2 - b.2)))) (b :: rest))
        = List.map (fun q : F64 × F64 => (scaleUp j q.1, scaleUp j q.2))
            (List.map (fun p : Int × Int =>
              (roundInt (p.1 - b.1), roundInt (p.2 - b.2))) (b :: rest)) := by
      rw [List.map_map]
      apply List.map_congr_left
      intro p hp
      have h1 : isFinite (roundInt (2 ^ j * (p.1 - b.1))) = true :=
        hfin _ (mem_flat64.mpr ⟨_, List.mem_map_of_mem _ hp, Or.inl rfl⟩)
      have h2 : isFinite (roundInt (2 ^ j * (p.2 - b.2))) = true :=
        hfin _ (mem_flat64.mpr ⟨_, List.mem_map_of_mem _ hp, Or.inr rfl⟩)
      simp only [Function.comp_apply]
      rw [roundInt_pow_mul j _ h1, roundInt_pow_mul j _ h2]
    rw [hup, flat64_map_map] at hfin ⊢
    generalize flat64 (List.map (fun p : Int × Int =>
      (roundInt (p.1 - b.1), roundInt (p.2 - b.2))) (b :: rest)) = S at hfin hfloor ⊢
    have hSfin : ∀ v ∈ S, isFinite v = true := by
      intro v hv
      rw [← isFinite_scaleUp j v]
      exact hfin _ (List.mem_map_of_mem _ hv)
    have hAfin : ∀ v ∈ S.map abs64, isFinite v = true := by
      intro v hv
      obtain ⟨w, hw, rfl⟩ := List.mem_map.mp hv
      obtain ⟨u, rfl⟩ := (isFinite_iff w).mp (hSfin w hw)
      rfl
    have hA'fin : ∀ v ∈ (S.map (scaleUp j)).map abs64, isFinite v = true := by
      intro v hv
      obtain ⟨w, hw, rfl⟩ := List.mem_map.mp hv
      obtain ⟨u, rfl⟩ := (isFinite_iff w).mp (hfin w hw)
      rfl
    rw [floor64_eq] at hfloor ⊢
    obtain ⟨m, hm, hem, hmall, hmmem⟩ := mathMax64_fin _ floorUnits hAfin
    obtain ⟨m', hm', hem', hm'all, hm'mem⟩ := mathMax64_fin _ floorUnits hA'fin
    have hp : (0 : Int) < 2 ^ j := by positivity
    have hone : (1 : Int) ≤ 2 ^ j := by
      exact_mod_cast (Nat.one_le_two_pow : 1 ≤ 2 ^ j)
    have hmpos : 0 < m := lt_of_lt_of_le floorUnits_pos hem
    -- members of the two lists of absolute values
    have hmemA' : ∀ a, F64.fin a ∈ S.map abs64 →
        F64.fin (2 ^ j * a) ∈ (S.map (scaleUp j)).map abs64 := by
      intro a ha
      obtain ⟨w, hw, hwa⟩ := List.mem_map.mp ha
      refine List.mem_map.mpr ⟨scaleUp j w, List.mem_map_of_mem _ hw, ?_⟩
      rw [abs64_scaleUp, hwa]; rfl
    have hmemA : ∀ a', F64.fin a' ∈ (S.map (scaleUp j)).map abs64 →
        ∃ a, F64.fin a ∈ S.map abs64 ∧ a' = 2 ^ j * a := by
      intro a' ha'
      obtain ⟨w', hw', hwa'⟩ := List.mem_map.mp ha'
      obtain ⟨w, hw, rfl⟩ := List.mem_map.mp hw'
      obtain ⟨u, rfl⟩ := (isFinite_iff w).mp (hSfin w hw)
      refine ⟨|u|, List.mem_map.mpr ⟨_, hw, rfl⟩, ?_⟩
      have : F64.fin |2 ^ j * u| = F64.fin a' := hwa'
      have h2 : |2 ^ j * u| = a' := by simpa using this
      rw [← h2, abs_mul, abs_of_pos hp]
    have hnonneg : ∀ a, F64.fin a ∈ S.map abs64 → 0 ≤ a := by
      intro a ha
      obtain ⟨w, hw, hwa⟩ := List.mem_map.mp ha
      obtain ⟨u, rfl⟩ := (isFinite_iff w).mp (hSfin w hw)
      have : |u| = a := by simpa [abs64] using hwa
      rw [← this]; exact abs_nonneg u
    -- the maximum of the smaller hand is attained by an offset
    have hmA : F64.fin m ∈ S.map abs64 := by
      rcases hmmem with h | h
      · obtain ⟨v, hv, hle⟩ := hfloor
        obtain ⟨u, rfl⟩ := (isFinite_iff v).mp (hSfin v hv)
        have hle' : floorUnits ≤ |u| := by simpa [le64, abs64] using hle
        have hin : F64.fin |u| ∈ S.map abs64 := List.mem_map.mpr ⟨_, hv, rfl⟩
        have h1 : |u| ≤ m := hmall _ hin
        have h2 : |u| = m := le_antisymm h1 (by rw [h]; exact hle')
        rw [← h2]; exact hin
      · exact h
    have hmm : m' = 2 ^ j * m := by
      apply le_antisymm
      · rcases hm'mem with h | h
        · rw [h]
          calc floorUnits ≤ m := hem
            _ = 1 * m := (one_mul m).symm
            _ ≤ 2 ^ j * m := mul_le_mul_of_nonneg_right hone hmpos.le
        · obtain ⟨a, ha, rfl⟩ := hmemA m' h
          exact mul_le_mul_of_nonneg_left (hmall a ha) hp.le
      · exact hm'all _ (hmemA' m hmA)
    rw [hm, hm', hmm, List.map_map]
    apply List.map_congr_left
    intro v hv
    obtain ⟨u, rfl⟩ := (isFinite_iff v).mp (hSfin v hv)
    exact div64_scaleUp j u m hmpos

theorem exactSum_spec {a b : F64} (h : exactSum a b = true) :
    ∃ u v, a = .fin u ∧ b = .fin v ∧ add64 a b = .fin (u + v) := by
  cases a with
  | fin u =>
    cases b with
    | fin v => exact ⟨u, v, rfl, rfl, by simpa [exactSum] using h⟩
    | inf t => simp [exactSum] at h
    | nan => simp [exactSum] at h
  | inf s => simp [exactSum] at h
  | nan => simp [exactSum] at h

theorem sub64_exactSum {a b d : F64} (ha : exactSum a d = true) (hb : exactSum b d = true) :
    sub64 (add64 a d) (add64 b d) = sub64 a b := by
  obtain ⟨u, v, rfl, rfl, hu⟩ := exactSum_spec ha
  obtain ⟨w, v', rfl, hv', hw⟩ := exactSum_spec hb
  have hvv : v = v' := by simpa using hv'
  subst hvv
  rw [hu, hw]
  show roundInt (u + v - (w + v)) = roundInt (u - w)
  rw [add_sub_add_right_eq_sub]

/-! ## Claims on exact equalities of outputs, in binary64 arithmetic -/

/-- C3 as stated fails in the arithmetic of the code: `spreadHand` (21 points)
translated by `(0.1, 0.2)` has output 4 equal to `0.8571428571428569`, the untranslated
hand has `0.8571428571428572` there, so the two outputs are not the same. -/
theorem translate_changes_output :
    spreadHand.length = 21 ∧
    (preprocessLandmark64
        (some (translate64 (ofRatio 1 10) (ofRatio 2 10) spreadHand))).bind (fun out => out[4]?)
      = some (ofRatio 8571428571428569 10000000000000000) ∧
    (preprocessLandmark64 (some spreadHand)).bind (fun out => out[4]?)
      = some (ofRatio 8571428571428572 10000000000000000) ∧
    preprocessLandmark64 (some (translate64 (ofRatio 1 10) (ofRatio 2 10) spreadHand))
      ≠ preprocessLandmark64 (some spreadHand) := by
  decide!

/-- C3, amended: for every non-empty landmark list of doubles (in particular every set
of 21 points) and every offset `(dx, dy)` such that each sum `x + dx` and `y + dy` is
formed without rounding, `preprocessLandmark` returns a non-null output for the list, and
adding `(dx, dy)` to all landmarks gives exactly that same output. -/
theorem preprocessLandmark64_translate (l : List Landmark64) (dx dy : F64) (hl : l ≠ [])
    (h : ∀ p ∈ l, exactSum p.x dx = true ∧ exactSum p.y dy = true) :
    ∃ out, preprocessLandmark64 (some l) = some out ∧
      preprocessLandmark64 (some (translate64 dx dy l)) = some out := by
  cases l with
  | nil => exact absurd rfl hl
  | cons b rest =>
    have ht : translate64 dx dy (b :: rest) =
        { x := add64 b.x dx, y := add64 b.y dy } :: translate64 dx dy rest := rfl
    have hoff : flatOffsets64 (translate64 dx dy (b :: rest))
        { x := add64 b.x dx, y := add64 b.y dy } = flatOffsets64 (b :: rest) b := by
      unfold flatOffsets64 translate64
      rw [List.map_map]
      congr 1
      apply List.map_congr_left
      intro p hp
      have hb := h b (List.mem_cons_self _ _)
      have hp' := h p hp
      simp only [Function.comp_apply]
      rw [sub64_exactSum hp'.1 hb.1, sub64_exactSum hp'.2 hb.2]
    refine ⟨_, preprocessLandmark64_cons b rest, ?_⟩
    rw [ht, preprocessLandmark64_cons, ← ht, hoff]

/-- Witness for the amended C3: the hand with the wrist at `(1/4, 1/4)` and the other
twenty landmarks at `(1/2, 3/4)`, translated by `(1/8, 1/8)`. -/
theorem preprocessLandmark64_translate_witness :
    hand64 quarterPoints ≠ [] ∧
    (∀ p ∈ hand64 quarterPoints,
      exactSum p.x (ofRatio 1 8) = true ∧ exactSum p.y (ofRatio 1 8) = true) ∧
    ∃ out, preprocessLandmark64 (some (hand64 quarterPoints)) = some out ∧
      preprocessLandmark64
        (some (translate64 (ofRatio 1 8) (ofRatio 1 8) (hand64 quarterPoints))) = some out :=
  ⟨by decide!, by decide!,
   preprocessLandmark64_translate (hand64 quarterPoints) (ofRatio 1 8) (ofRatio 1 8)
    (by decide!) (by decide!)⟩

/-- C4 as stated fails in the arithmetic of the code, in two ways.  Rounding:
`spreadHand` scaled by `k = 3` has outputs 2 and 4 equal to `0.28571428571428564` and
`0.8571428571428569`, the unscaled hand has `0.2857142857142857` and
`0.8571428571428572`.  Floor: `halfWidthHand64` has output 2 equal to `1`, and scaled by
`k = 2^-20` its largest offset lies under `1e-6` and output 2 is `0.476837158203125`. -/
theorem scale_changes_output :
    spreadHand.length = 21 ∧ halfWidthHand64.length = 21 ∧
    (preprocessLandmark64 (some (scale64 (ofRatio 3 1) spreadHand))).bind (fun out => out[2]?)
      = some (ofRatio 28571428571428564 100000000000000000) ∧
    (preprocessLandmark64 (some (scale64 (ofRatio 3 1) spreadHand))).bind (fun out => out[4]?)
      = some (ofRatio 8571428571428569 10000000000000000) ∧
    (preprocessLandmark64 (some spreadHand)).bind (fun out => out[2]?)
      = some (ofRatio 2857142857142857 10000000000000000) ∧
    (preprocessLandmark64 (some spreadHand)).bind (fun out => out[4]?)
      = some (ofRatio 8571428571428572 10000000000000000) ∧
    preprocessLandmark64 (some (scale64 (ofRatio 3 1) spreadHand))
      ≠ preprocessLandmark64 (some spreadHand) ∧
    (preprocessLandmark64 (some halfWidthHand64)).bind (fun out => out[2]?)
      = some (ofRatio 1 1) ∧
    (preprocessLandmark64 (some (scale64 (ofRatio 1 1048576) halfWidthHand64))).bind
        (fun out => out[2]?)
      = some (ofRatio 476837158203125 1000000000000000) ∧
    preprocessLandmark64 (some (scale64 (ofRatio 1 1048576) halfWidthHand64))
      ≠ preprocessLandmark64 (some halfWidthHand64) := by
  decide!

/-- C4, amended: for every hand `b :: rest` of finite doubles (coordinates in units of
`2^-1074`; in particular every set of 21 points) and every constant `k` that acts on it
as an exact power of two, `preprocessLandmark` returns a non-null output, and
multiplying the x and y of all landmarks by `k` gives exactly that same output, provided
no wrist-relative offset of the larger hand overflows and either all landmarks coincide
with the wrist or some offset of the smaller hand has absolute value at least `1e-6`.
First part: `k` multiplies every coordinate by `2^j`.  Second part: `k` divides every
coordinate by `2^j`, the hand being `2^j` times `b :: rest`. -/
theorem preprocessLandmark64_scale (b : Int × Int) (rest : List (Int × Int)) (j : Nat)
    (k : F64)
    (hfin : ∀ v ∈ flatOffsets64 (hand64 (timesPow2 j (b :: rest)))
      { x := .fin (2 ^ j * b.1), y := .fin (2 ^ j * b.2) }, isFinite v = true)
    (hfloor : (∀ p ∈ rest, p = b) ∨
      ∃ v ∈ flatOffsets64 (hand64 (b :: rest)) { x := .fin b.1, y := .fin b.2 },
        le64 floor64 (abs64 v) = true) :
    (scale64 k (hand64 (b :: rest)) = hand64 (timesPow2 j (b :: rest)) →
      ∃ out, preprocessLandmark64 (some (hand64 (b :: rest))) = some out ∧
        preprocessLandmark64 (some (scale64 k (hand64 (b :: rest)))) = some out) ∧
    (scale64 k (hand64 (timesPow2 j (b :: rest))) = hand64 (b :: rest) →
      ∃ out, preprocessLandmark64 (some (hand64 (timesPow2 j (b :: rest)))) = some out ∧
        preprocessLandmark64 (some (scale64 k (hand64 (timesPow2 j (b :: rest)))))
          = some out) := by
  have hcore := preprocessLandmark64_timesPow2 b rest j hfin hfloor
  have hsome : preprocessLandmark64 (some (hand64 (b :: rest))) =
      some ((flatOffsets64 (hand64 (b :: rest)) { x := .fin b.1, y := .fin b.2 }).map fun v =>
        div64 v (mathMax64
          ((flatOffsets64 (hand64 (b :: rest)) { x := .fin b.1, y := .fin b.2 }).map abs64)
          floor64)) := rfl
  constructor
  · intro hk
    exact ⟨_, hsome, by rw [hk, hcore, hsome]⟩
  · intro hk
    exact ⟨_, by rw [hcore, hsome], by rw [hk, hsome]⟩

/-- Witness for the amended C4: the hand with the wrist at `(1/4, 1/4)` and the other
twenty landmarks at `(1/2, 3/4)`, scaled by `k = 2`; and twice that hand scaled by
`k = 1/2`. -/
theorem preprocessLandmark64_scale_witness :
    (∃ out, preprocessLandmark64
        (some (hand64 (quarterWrist :: List.replicate 20 quarterTip))) = some out ∧
      preprocessLandmark64 (some (scale64 (ofRatio 2 1)
        (hand64 (quarterWrist :: List.replicate 20 quarterTip)))) = some out) ∧
    (∃ out, preprocessLandmark64 (some (hand64 (timesPow2 1
        (quarterWrist :: List.replicate 20 quarterTip)))) = some out ∧
      preprocessLandmark64 (some (scale64 (ofRatio 1 2) (hand64 (timesPow2 1
        (quarterWrist :: List.replicate 20 quarterTip))))) = some out) :=
  ⟨(preprocessLandmark64_scale quarterWrist (List.replicate 20 quarterTip) 1 (ofRatio 2 1)
      (by decide!) (Or.inr (by decide!))).1 (by decide!),
   (preprocessLandmark64_scale quarterWrist (List.replicate 20 quarterTip) 1 (ofRatio 1 2)
      (by decide!) (Or.inr (by decide!))).2 (by decide!)⟩

end HeartGestures
